import Mathlib

/-!
Verification of the segmentation-and-aggregation core of the Nekomata
repository.  Rust strings are modelled as lists of Unicode code points,
machine integers as `Nat` with explicit saturation / wrap-around where the
source uses them, and `f64` values as exact rationals.
-/

namespace Nekomata

/-- Rust strings are modelled as lists of Unicode code points. -/
abbrev RStr := List Nat

/-- Code points of a Lean string literal, used to write concrete inputs. -/
def strLit (s : String) : RStr := s.data.map Char.toNat

/-- Model of Rust `char::is_whitespace`, restricted to the ASCII whitespace
characters U+0009..U+000D and U+0020 (all texts handled by this program are
ASCII). -/
def isWs (c : Nat) : Bool := (9 ≤ c && c ≤ 13) || c == 32

/-- Model of `char::is_ascii_digit`. -/
def isDigit (c : Nat) : Bool := 48 ≤ c && c ≤ 57

/-- Per-character lowercasing as used through `str::to_lowercase`, restricted
to ASCII letters. -/
def toLowerC (c : Nat) : Nat := if 65 ≤ c ∧ c ≤ 90 then c + 32 else c

/-- Leading-whitespace trim, one half of Rust `str::trim`. -/
def ltrim (s : RStr) : RStr := s.dropWhile isWs

/-- Trailing-whitespace trim, the other half of Rust `str::trim`. -/
def rtrim (s : RStr) : RStr := (s.reverse.dropWhile isWs).reverse

/-- Model of Rust `str::trim`. -/
def trimChars (s : RStr) : RStr := rtrim (ltrim s)

/-- Loop body of `collapse_whitespace` (src/src/dungeon/catalog.rs): each
maximal whitespace run becomes a single space; the flag records whether the
previous character was whitespace. -/
def collapseAux : RStr → Bool → RStr
  | [], _ => []
  | c :: rest, inW =>
    if isWs c then
      if inW then collapseAux rest true else 32 :: collapseAux rest true
    else c :: collapseAux rest false

/-- Model of `collapse_whitespace` (src/src/dungeon/catalog.rs): collapse
internal whitespace runs, then trim the buffer. -/
def collapse_whitespace (input : RStr) : RStr := trimChars (collapseAux input false)

/-- Model of `normalize_zone` (src/src/dungeon/catalog.rs): trim, collapse
whitespace, reject an empty result, lowercase. -/
def normalize_zone (zone : RStr) : Option RStr :=
  let collapsed := collapse_whitespace (trimChars zone)
  if collapsed = [] then none else some (collapsed.map toLowerC)

/-- Dungeon catalogue: the map from normalized zone name to canonical spelling
(`HashMap<String,String>` in the source) is modelled as an association list
with distinct keys. -/
structure DungeonCatalog where
  canonical_by_norm : List (RStr × RStr)
deriving DecidableEq

/-- Association-list lookup, modelling `HashMap::get`. -/
def assocLookup : List (RStr × RStr) → RStr → Option RStr
  | [], _ => none
  | p :: rest, k => if p.1 = k then some p.2 else assocLookup rest k

/-- Loop body of `DungeonCatalog::from_raw` (src/src/dungeon/catalog.rs):
register zones one by one, skipping entries whose normalization is empty and
normalized keys that are already present.  The input list is the iteration
sequence of the raw document map (the source iterates a `HashMap`, so this
sequence is not specified to be the document order). -/
def fromRawAux : List RStr → List (RStr × RStr) → List (RStr × RStr)
  | [], acc => acc
  | zone :: rest, acc =>
    match normalize_zone zone with
    | none => fromRawAux rest acc
    | some normalized =>
      if acc.any fun p => decide (p.1 = normalized) then fromRawAux rest acc
      else fromRawAux rest (acc ++ [(normalized, collapse_whitespace (trimChars zone))])

/-- Model of `DungeonCatalog::from_raw` (src/src/dungeon/catalog.rs). -/
def DungeonCatalog.from_raw (entries : List RStr) : DungeonCatalog :=
  ⟨fromRawAux entries []⟩

/-- Model of `DungeonCatalog::canonical_zone` (src/src/dungeon/catalog.rs). -/
def DungeonCatalog.canonical_zone (cat : DungeonCatalog) (zone : RStr) : Option RStr :=
  match normalize_zone zone with
  | none => none
  | some key => assocLookup cat.canonical_by_norm key

/-- Largest `u64` value. -/
def u64max : Nat := 2 ^ 64 - 1

/-- Model of `u64::saturating_mul`. -/
def satMul (a b : Nat) : Nat := min (a * b) u64max

/-- Model of `u64::saturating_add`. -/
def satAdd (a b : Nat) : Nat := min (a + b) u64max

/-- Numeric value of a digit string. -/
def digitsVal (s : RStr) : Nat := s.foldl (fun a c => a * 10 + (c - 48)) 0

/-- Model of `str::parse::<u64>`: an optional single leading plus sign, then
one or more ASCII digits, with value below 2^64. -/
def parseU64 (s : RStr) : Option Nat :=
  let digits := if s.head? = some 43 then s.tail else s
  if digits = [] then none
  else if digits.all isDigit then
    if digitsVal digits < 2 ^ 64 then some (digitsVal digits) else none
  else none

/-- Model of `str::split(':')`: splitting the empty string yields one empty
segment and every colon starts a new segment. -/
def splitColon : RStr → List RStr
  | [] => [[]]
  | c :: rest =>
    if c = 58 then [] :: splitColon rest
    else
      match splitColon rest with
      | [] => [[c]]
      | p :: ps => (c :: p) :: ps

/-- Loop of `parse_duration_secs` (src/src/history/util.rs), processing the
rightmost segment first: trim each segment, reject empty segments and segments
containing a minus sign, accumulate `segment * multiplier` (saturating
multiplication, wrapping u64 addition) and scale the multiplier by 60
(saturating). -/
def durLoop : List RStr → Nat → Nat → Option Nat
  | [], value, _ => some value
  | part :: rest, value, multiplier =>
    let part := trimChars part
    if part = [] then none
    else if 45 ∈ part then none
    else
      match parseU64 part with
      | none => none
      | some parsed =>
        durLoop rest ((value + satMul parsed multiplier) % 2 ^ 64) (satMul multiplier 60)

/-- Model of `parse_duration_secs` (src/src/history/util.rs). -/
def parse_duration_secs (s : RStr) : Option Nat :=
  if trimChars s = [] then none
  else
    let parts := splitColon (trimChars s)
    if parts = [] ∨ parts.length > 3 then none
    else durLoop parts.reverse 0 1

/-- Decimal part of Rust `f64` parsing for sign-free input: one or more digits
with at most one decimal point (`Digits`, `Digits . Digits?` or `. Digits`);
the value is modelled as an exact rational. -/
def parseUnsignedDec (s : RStr) : Option ℚ :=
  let ip := s.takeWhile isDigit
  let rest := s.dropWhile isDigit
  match rest with
  | [] => if ip = [] then none else some (digitsVal ip : ℚ)
  | 46 :: frac =>
    if frac.all isDigit ∧ (ip ≠ [] ∨ frac ≠ []) then
      some ((digitsVal ip : ℚ) + (digitsVal frac : ℚ) / (10 ^ frac.length : ℚ))
    else none
  | _ => none

/-- Model of `str::parse::<f64>` on strings over the alphabet that
`parse_number` keeps (digits, signs and periods). -/
def parseF64 (s : RStr) : Option ℚ :=
  match s with
  | 43 :: rest => parseUnsignedDec rest
  | 45 :: rest => (parseUnsignedDec rest).map (fun q => -q)
  | _ => parseUnsignedDec s

/-- Model of `parse_number` (src/src/history/util.rs): keep digits, signs and
periods, default to 0.0 when empty or unparseable. -/
def parse_number (s : RStr) : ℚ :=
  let buf := s.filter fun c => isDigit c || c == 46 || c == 43 || c == 45
  if buf = [] then 0 else (parseF64 buf).getD 0

/-- Modelled from the spec: the encounter summary of `crate::model` (its
source file is not in the tree); the fields follow the uses in
src/src/history/recorder.rs and src/src/history/dungeon.rs. -/
structure EncounterSummary where
  title : RStr
  zone : RStr
  duration : RStr
  encdps : RStr
  damage : RStr
  enchps : RStr
  healed : RStr
  is_active : Bool
deriving DecidableEq

/-- Modelled from the spec: the participant row of `crate::model` (source
file not in the tree); only the fields read by the history core are kept,
with `f64` values as exact rationals. -/
structure CombatantRow where
  name : RStr
  job : RStr
  damage : ℚ
  healed : ℚ
  encdps : ℚ
  enchps : ℚ
deriving DecidableEq

/-- Modelled from the spec: `EncounterSnapshot` of src/src/history/types.rs
(not in the tree): one reported tick with its opaque raw payload (kept as an
abstract `Nat` token) and receipt time. -/
structure EncounterSnapshot where
  encounter : EncounterSummary
  rows : List CombatantRow
  raw : Nat
  received_ms : Nat
deriving DecidableEq

/-- Modelled from the spec: `EncounterFrame` of src/src/history/types.rs (not
in the tree): a timestamped copy of one snapshot. -/
structure EncounterFrame where
  received_ms : Nat
  encounter : EncounterSummary
  rows : List CombatantRow
  raw : Nat
deriving DecidableEq

/-- Modelled from the spec: the record schema version constant of
src/src/history/types.rs (its value is irrelevant to every claim). -/
def SCHEMA_VERSION : Nat := 1

/-- Modelled from the spec: `EncounterRecord` of src/src/history/types.rs
(not in the tree); the fields follow `EncounterRecord::from_active` in
src/src/history/recorder.rs. -/
structure EncounterRecord where
  version : Nat
  stored_ms : Nat
  first_seen_ms : Nat
  last_seen_ms : Nat
  encounter : EncounterSummary
  rows : List CombatantRow
  raw_last : Option Nat
  snapshots : Nat
  saw_active : Bool
  frames : List EncounterFrame
deriving DecidableEq

/-- Modelled from the spec: `DungeonAggregateRecord` of
src/src/history/types.rs (not in the tree); the fields follow
`DungeonSession::into_record` in src/src/history/dungeon.rs.  Child keys are
opaque byte strings, modelled as lists of numbers. -/
structure DungeonAggregateRecord where
  version : Nat
  zone : RStr
  started_ms : Nat
  last_seen_ms : Nat
  party_signature : List RStr
  total_duration_secs : Nat
  total_damage : ℚ
  total_healed : ℚ
  total_encdps : ℚ
  child_keys : List (List Nat)
  child_titles : List RStr
  incomplete : Bool
deriving DecidableEq

/-- Lexicographic comparison of code-point strings, modelling the `Ord`
instance of Rust `String` used by `sort_unstable`. -/
def lexLe : RStr → RStr → Bool
  | [], _ => true
  | _ :: _, [] => false
  | a :: xs, b :: ys => if a < b then true else if b < a then false else lexLe xs ys

/-- Insertion into a sorted list, auxiliary to `sortStrs`. -/
def insertSorted (x : RStr) : List RStr → List RStr
  | [] => [x]
  | y :: ys => if lexLe x y then x :: y :: ys else y :: insertSorted x ys

/-- Stable insertion sort by `lexLe`, modelling `Vec::sort_unstable` (the
result is the same sorted list). -/
def sortStrs (l : List RStr) : List RStr := l.foldr insertSorted []

/-- Model of `Vec::dedup`: remove consecutive duplicates. -/
def dedupAdj : List RStr → List RStr
  | [] => []
  | [x] => [x]
  | x :: y :: rest =>
    if x = y then dedupAdj (y :: rest) else x :: dedupAdj (y :: rest)

/-- Model of `party_signature` (src/src/history/util.rs): sorted, deduplicated
`name|job` entries (124 is the code point of the vertical bar). -/
def party_signature (rows : List CombatantRow) : List RStr :=
  dedupAdj (sortStrs (rows.map fun row => trimChars row.name ++ 124 :: trimChars row.job))

/-- Model of `resolve_title` (src/src/history/util.rs): trimmed title, else
trimmed zone, else a fixed fallback. -/
def resolve_title (record : EncounterRecord) : RStr :=
  let primary := trimChars record.encounter.title
  if primary ≠ [] then primary
  else
    let zone := trimChars record.encounter.zone
    if zone ≠ [] then zone else strLit "Unknown Encounter"

/-- Model of `ActiveEncounter` (src/src/history/recorder.rs). -/
structure ActiveEncounter where
  first_seen_ms : Nat
  last_seen_ms : Nat
  latest_summary : EncounterSummary
  latest_rows : List CombatantRow
  last_raw : Nat
  saw_active : Bool
  frames : List EncounterFrame
deriving DecidableEq

/-- Model of `EncounterFrame::new` (src/src/history/recorder.rs). -/
def EncounterFrame.new (received_ms : Nat) (encounter : EncounterSummary)
    (rows : List CombatantRow) (raw : Nat) : EncounterFrame :=
  ⟨received_ms, encounter, rows, raw⟩

/-- Model of `ActiveEncounter::from_snapshot` (src/src/history/recorder.rs). -/
def ActiveEncounter.from_snapshot (snapshot : EncounterSnapshot) : ActiveEncounter :=
  { first_seen_ms := snapshot.received_ms
    last_seen_ms := snapshot.received_ms
    latest_summary := snapshot.encounter
    latest_rows := snapshot.rows
    last_raw := snapshot.raw
    saw_active := snapshot.encounter.is_active
    frames := [EncounterFrame.new snapshot.received_ms snapshot.encounter snapshot.rows snapshot.raw] }

/-- Model of `ActiveEncounter::update` (src/src/history/recorder.rs): refresh
last-seen, append a frame, replace the latest summary/rows/raw and OR the
sticky activity flag with the incoming active flag. -/
def ActiveEncounter.update (a : ActiveEncounter) (snapshot : EncounterSnapshot) : ActiveEncounter :=
  { a with
    last_seen_ms := snapshot.received_ms
    latest_summary := snapshot.encounter
    latest_rows := snapshot.rows
    last_raw := snapshot.raw
    frames := a.frames ++
      [EncounterFrame.new snapshot.received_ms snapshot.encounter snapshot.rows snapshot.raw]
    saw_active := a.saw_active || snapshot.encounter.is_active }

/-- Model of `EncounterRecord::from_active` (src/src/history/recorder.rs); the
wall-clock reading `now_ms()` is passed explicitly. -/
def EncounterRecord.from_active (now : Nat) (active : ActiveEncounter) : EncounterRecord :=
  { version := SCHEMA_VERSION
    stored_ms := now
    first_seen_ms := active.first_seen_ms
    last_seen_ms := active.last_seen_ms
    encounter := active.latest_summary
    rows := active.latest_rows
    raw_last := match active.frames.getLast? with
      | some frame => some frame.raw
      | none => some active.last_raw
    snapshots := active.frames.length
    saw_active := active.saw_active
    frames := active.frames }

/-- Model of `should_rollover` (src/src/history/recorder.rs).  The source
computes `next_secs + 2` over `u64`, which wraps around in release builds, so
the sum is taken modulo 2^64 here. -/
def should_rollover (active : ActiveEncounter) (incoming : EncounterSnapshot) : Bool :=
  let previous := active.latest_summary
  let next := incoming.encounter
  if next.is_active then
    if active.saw_active = false then true
    else
      let durationReset :=
        match parse_duration_secs previous.duration, parse_duration_secs next.duration with
        | some prev_secs, some next_secs =>
          if (next_secs + 2) % 2 ^ 64 < prev_secs then true
          else if prev_secs > 10 ∧ next_secs = 0 then true
          else false
        | _, _ => false
      if durationReset then true
      else
        let prev_damage := parse_number previous.damage
        let next_damage := parse_number next.damage
        decide (next_damage + 1 < prev_damage)
  else false

/-- Model of `snapshot_has_activity` (src/src/history/recorder.rs): true when
the snapshot is active, or when any summary or row figure is positive. -/
def snapshot_has_activity (snapshot : EncounterSnapshot) : Bool :=
  if snapshot.encounter.is_active then true
  else if parse_number snapshot.encounter.damage > 0
      || parse_number snapshot.encounter.healed > 0
      || parse_number snapshot.encounter.encdps > 0
      || parse_number snapshot.encounter.enchps > 0 then true
  else snapshot.rows.any fun row =>
    decide (row.damage > 0) || decide (row.healed > 0)
      || decide (row.encdps > 0) || decide (row.enchps > 0)

/-- Model of `DungeonZoneState` (src/src/history/dungeon.rs). -/
inductive DungeonZoneState where
  | Active (zone : RStr)
  | Inactive
deriving DecidableEq

/-- Model of `DungeonRecorderUpdate` (src/src/history/dungeon.rs). -/
structure DungeonRecorderUpdate where
  aggregates : List DungeonAggregateRecord
  zone_state : Option DungeonZoneState
deriving DecidableEq

/-- The update value produced by `DungeonRecorderUpdate::default()`. -/
def emptyUpdate : DungeonRecorderUpdate := ⟨[], none⟩

/-- Model of `DungeonSession` (src/src/history/dungeon.rs). -/
structure DungeonSession where
  zone : RStr
  started_ms : Nat
  last_seen_ms : Nat
  party_signature : List RStr
  total_duration_secs : Nat
  total_damage : ℚ
  total_healed : ℚ
  child_keys : List (List Nat)
  child_titles : List RStr
deriving DecidableEq

/-- Model of `DungeonSession::append` (src/src/history/dungeon.rs). -/
def DungeonSession.append (s : DungeonSession) (record : EncounterRecord)
    (key : List Nat) : DungeonSession :=
  { s with
    last_seen_ms := record.last_seen_ms
    child_keys := s.child_keys ++ [key]
    child_titles := s.child_titles ++ [resolve_title record]
    total_duration_secs :=
      match parse_duration_secs record.encounter.duration with
      | some duration => satAdd s.total_duration_secs duration
      | none => s.total_duration_secs
    total_damage := s.total_damage + parse_number record.encounter.damage
    total_healed := s.total_healed + parse_number record.encounter.healed }

/-- Model of `DungeonSession::new` (src/src/history/dungeon.rs): zeroed totals
seeded by appending the first record. -/
def DungeonSession.new (zone : RStr) (record : EncounterRecord) (key : List Nat) :
    DungeonSession :=
  DungeonSession.append
    { zone := zone
      started_ms := record.first_seen_ms
      last_seen_ms := record.last_seen_ms
      party_signature := Nekomata.party_signature record.rows
      total_duration_secs := 0
      total_damage := 0
      total_healed := 0
      child_keys := []
      child_titles := [] }
    record key

/-- Loop of `dedup_keys` (src/src/history/dungeon.rs): keep the first
occurrence of each key, with titles matched by original index. -/
def dedupGo : List (List Nat) → Nat → List RStr → List (List Nat) →
    List (List Nat) × List RStr
  | [], _, _, _ => ([], [])
  | key :: rest, idx, titles, seen =>
    if seen.any fun existing => decide (existing = key) then
      dedupGo rest (idx + 1) titles seen
    else
      let filtered := dedupGo rest (idx + 1) titles (seen ++ [key])
      (key :: filtered.1,
       match titles.get? idx with
       | some title => title :: filtered.2
       | none => filtered.2)

/-- Model of `dedup_keys` (src/src/history/dungeon.rs). -/
def dedup_keys (keys : List (List Nat)) (titles : List RStr) :
    List (List Nat) × List RStr :=
  dedupGo keys 0 titles []

/-- Model of `DungeonSession::into_record` (src/src/history/dungeon.rs):
deduplicate children and derive the total rate. -/
def DungeonSession.into_record (s : DungeonSession) (incomplete : Bool) :
    DungeonAggregateRecord :=
  let filtered := dedup_keys s.child_keys s.child_titles
  let total_encdps : ℚ :=
    if s.total_duration_secs > 0 then s.total_damage / (s.total_duration_secs : ℚ) else 0
  { version := SCHEMA_VERSION
    zone := s.zone
    started_ms := s.started_ms
    last_seen_ms := s.last_seen_ms
    party_signature := s.party_signature
    total_duration_secs := s.total_duration_secs
    total_damage := s.total_damage
    total_healed := s.total_healed
    total_encdps := total_encdps
    child_keys := filtered.1
    child_titles := filtered.2
    incomplete := incomplete }

/-- Model of `DungeonRecorder` (src/src/history/dungeon.rs). -/
structure DungeonRecorder where
  catalog : Option DungeonCatalog
  enabled : Bool
  session : Option DungeonSession
deriving DecidableEq

/-- Model of `DungeonRecorder::new` (src/src/history/dungeon.rs): the enabled
flag is anded with catalogue presence. -/
def DungeonRecorder.new (catalog : Option DungeonCatalog) (enabled : Bool) :
    DungeonRecorder :=
  { catalog := catalog, enabled := enabled && catalog.isSome, session := none }

/-- Model of `DungeonRecorder::end_session` (src/src/history/dungeon.rs). -/
def DungeonRecorder.end_session (rec : DungeonRecorder) (incomplete : Bool) :
    DungeonRecorder × Option DungeonAggregateRecord :=
  match rec.session with
  | none => (rec, none)
  | some session => ({ rec with session := none }, some (session.into_record incomplete))

/-- Model of `DungeonRecorder::set_enabled` (src/src/history/dungeon.rs):
state mutation made explicit by returning the new recorder with the update. -/
def DungeonRecorder.set_enabled (rec : DungeonRecorder) (enabled : Bool) :
    DungeonRecorder × DungeonRecorderUpdate :=
  let effective := enabled && rec.catalog.isSome
  if effective = false then
    match rec.end_session true with
    | (rec2, some aggregate) =>
      ({ rec2 with enabled := effective }, ⟨[aggregate], some DungeonZoneState.Inactive⟩)
    | (rec2, none) => ({ rec2 with enabled := effective }, emptyUpdate)
  else ({ rec with enabled := effective }, emptyUpdate)

/-- Model of `DungeonRecorder::on_encounter` (src/src/history/dungeon.rs). -/
def DungeonRecorder.on_encounter (rec : DungeonRecorder) (record : EncounterRecord)
    (key : List Nat) : DungeonRecorder × DungeonRecorderUpdate :=
  if rec.enabled = false then (rec, emptyUpdate)
  else
    match rec.catalog with
    | none => (rec, emptyUpdate)
    | some catalog =>
      match catalog.canonical_zone record.encounter.zone with
      | none =>
        match rec.session with
        | some _ =>
          match rec.end_session false with
          | (rec2, some aggregate) =>
            (rec2, ⟨[aggregate], some DungeonZoneState.Inactive⟩)
          | (rec2, none) => (rec2, emptyUpdate)
        | none => (rec, emptyUpdate)
      | some canonical =>
        match rec.session with
        | some session =>
          if session.zone ≠ canonical then
            match rec.end_session false with
            | (rec2, some aggregate) =>
              ({ rec2 with session := some (DungeonSession.new canonical record key) },
               ⟨[aggregate], some (DungeonZoneState.Active canonical)⟩)
            | (rec2, none) =>
              ({ rec2 with session := some (DungeonSession.new canonical record key) },
               ⟨[], some (DungeonZoneState.Active canonical)⟩)
          else
            ({ rec with session := some (session.append record key) }, emptyUpdate)
        | none =>
          ({ rec with session := some (DungeonSession.new canonical record key) },
           ⟨[], some (DungeonZoneState.Active canonical)⟩)

/-- Model of `DungeonRecorder::flush` (src/src/history/dungeon.rs). -/
def DungeonRecorder.flush (rec : DungeonRecorder) (incomplete : Bool) :
    DungeonRecorder × DungeonRecorderUpdate :=
  match rec.end_session incomplete with
  | (rec2, some aggregate) => (rec2, ⟨[aggregate], some DungeonZoneState.Inactive⟩)
  | (rec2, none) => (rec2, emptyUpdate)

/-- An operation offered by the dungeon recorder interface. -/
inductive DungeonOp where
  | enc (record : EncounterRecord) (key : List Nat)
  | setE (enabled : Bool)
  | fl (incomplete : Bool)

/-- Dispatch one dungeon recorder operation. -/
def stepDungeon (rec : DungeonRecorder) : DungeonOp → DungeonRecorder × DungeonRecorderUpdate
  | DungeonOp.enc record key => rec.on_encounter record key
  | DungeonOp.setE enabled => rec.set_enabled enabled
  | DungeonOp.fl incomplete => rec.flush incomplete

/-- Run a sequence of dungeon recorder operations, collecting every update. -/
def runDungeon : DungeonRecorder → List DungeonOp →
    DungeonRecorder × List DungeonRecorderUpdate
  | rec, [] => (rec, [])
  | rec, op :: rest =>
    let out := stepDungeon rec op
    let tail := runDungeon out.1 rest
    (tail.1, out.2 :: tail.2)

/-- Model of the `RecorderWorker` state (src/src/history/recorder.rs).  The
history store (src/src/history/store.rs, not in the tree) is modelled from
the spec as a list of persisted records whose `append` always succeeds and
returns a fresh opaque key; the event channel is kept as the list of emitted
zone-state notifications. -/
structure RecorderWorker where
  current : Option ActiveEncounter
  dungeon : DungeonRecorder
  encStore : List EncounterRecord
  dungStore : List DungeonAggregateRecord
  notifs : List (Option RStr)
deriving DecidableEq

/-- The worker state right after `RecorderWorker::new`. -/
def initWorker (catalog : Option DungeonCatalog) (enabled : Bool) : RecorderWorker :=
  { current := none
    dungeon := DungeonRecorder.new catalog enabled
    encStore := []
    dungStore := []
    notifs := [] }

/-- Model of `RecorderWorker::handle_dungeon_update`: persist the aggregates
and emit the zone-state notification. -/
def handleDungeonUpdate (w : RecorderWorker) (update : DungeonRecorderUpdate) :
    RecorderWorker :=
  { w with
    dungStore := w.dungStore ++ update.aggregates
    notifs := w.notifs ++
      match update.zone_state with
      | some (DungeonZoneState.Active zone) => [some zone]
      | some DungeonZoneState.Inactive => [none]
      | none => [] }

/-- Model of `RecorderWorker::flush_active` (src/src/history/recorder.rs):
take the accumulator, discard it when it never saw activity and has no rows,
otherwise persist it and forward the record and its key to the dungeon
recorder (persistence is modelled as always succeeding). -/
def flush_active (now : Nat) (w : RecorderWorker) : RecorderWorker :=
  match w.current with
  | none => w
  | some active =>
    let record := EncounterRecord.from_active now active
    let w2 := { w with current := none }
    if record.saw_active = false ∧ record.rows = [] then w2
    else
      let key := [w2.encStore.length]
      let w3 := { w2 with encStore := w2.encStore ++ [record] }
      let out := w3.dungeon.on_encounter record key
      handleDungeonUpdate { w3 with dungeon := out.1 } out.2

/-- Core of `RecorderWorker::on_snapshot` past the opening-gate checks:
roll over if the boundary fires, merge the snapshot into the (possibly new)
accumulator and close immediately when the merged summary is inactive. -/
def ingest (now : Nat) (w : RecorderWorker) (snapshot : EncounterSnapshot) :
    RecorderWorker :=
  let w1 :=
    match w.current with
    | some active => if should_rollover active snapshot then flush_active now w else w
    | none => w
  let w2 :=
    match w1.current with
    | some active => { w1 with current := some (active.update snapshot) }
    | none => { w1 with current := some (ActiveEncounter.from_snapshot snapshot) }
  match w2.current with
  | some active =>
    if active.latest_summary.is_active = false then flush_active now w2 else w2
  | none => w2

/-- Model of `RecorderWorker::on_snapshot` (src/src/history/recorder.rs). -/
def onSnapshot (now : Nat) (w : RecorderWorker) (snapshot : EncounterSnapshot) :
    RecorderWorker :=
  match w.current with
  | none =>
    if snapshot.encounter.is_active = false then w
    else if snapshot_has_activity snapshot = false then w
    else ingest now w snapshot
  | some _ => ingest now w snapshot

/-- Model of `RecorderWorker::on_flush` (src/src/history/recorder.rs). -/
def onFlush (now : Nat) (w : RecorderWorker) : RecorderWorker :=
  let w1 := flush_active now w
  let out := w1.dungeon.flush true
  handleDungeonUpdate { w1 with dungeon := out.1 } out.2

/-- Model of `RecorderWorker::on_toggle_dungeon_mode`. -/
def onToggle (w : RecorderWorker) (enabled : Bool) : RecorderWorker :=
  let out := w.dungeon.set_enabled enabled
  handleDungeonUpdate { w with dungeon := out.1 } out.2

/-- A message of the recorder mailbox (src/src/history/recorder.rs); shutdown
performs the same final flush as `Flush`. -/
inductive RecorderMessage where
  | snapshot (snapshot : EncounterSnapshot)
  | flushMsg
  | toggle (enabled : Bool)

/-- Dispatch one mailbox message, with the wall-clock reading attached. -/
def stepWorker (w : RecorderWorker) : Nat × RecorderMessage → RecorderWorker
  | (now, RecorderMessage.snapshot snapshot) => onSnapshot now w snapshot
  | (now, RecorderMessage.flushMsg) => onFlush now w
  | (_, RecorderMessage.toggle enabled) => onToggle w enabled

/-- Run the worker loop over a sequence of timestamped messages. -/
def runWorker (w : RecorderWorker) (msgs : List (Nat × RecorderMessage)) :
    RecorderWorker :=
  msgs.foldl stepWorker w

/-- Two-digit rendering of a number below 100, as in duration texts. -/
def twoDig (n : Nat) : RStr := [48 + n / 10, 48 + n % 10]

theorem isWs_eq_decide (c : Nat) : isWs c = decide ((9 ≤ c ∧ c ≤ 13) ∨ c = 32) := by
  by_cases h9 : 9 ≤ c <;> by_cases h13 : c ≤ 13 <;> by_cases h32 : c = 32 <;>
    simp [isWs, h9, h13, h32]

theorem isWs_false_of_ge {c : Nat} (h : 48 ≤ c) : isWs c = false := by
  rw [isWs_eq_decide]
  simp
  omega

theorem dropWhile_eq_self {p : Nat → Bool} {l : RStr} (h : ∀ x ∈ l, p x = false) :
    l.dropWhile p = l := by
  cases l with
  | nil => rfl
  | cons a t => exact List.dropWhile_cons_of_neg (by simp [h a (List.mem_cons_self a t)])

theorem trimChars_eq_self {l : RStr} (h : ∀ x ∈ l, isWs x = false) : trimChars l = l := by
  unfold trimChars ltrim rtrim
  rw [dropWhile_eq_self h, dropWhile_eq_self, List.reverse_reverse]
  intro x hx
  exact h x (List.mem_reverse.mp hx)

theorem splitColon_noColon {l : RStr} (h : ∀ c ∈ l, c ≠ 58) : splitColon l = [l] := by
  induction l with
  | nil => rfl
  | cons a t ih =>
    simp only [splitColon]
    rw [if_neg (h a (List.mem_cons_self a t)), ih fun c hc => h c (List.mem_cons_of_mem a hc)]

theorem splitColon_append {x y : RStr} (h : ∀ c ∈ x, c ≠ 58) :
    splitColon (x ++ 58 :: y) = x :: splitColon y := by
  induction x with
  | nil => simp [splitColon]
  | cons a t ih =>
    have ht := ih fun c hc => h c (List.mem_cons_of_mem a hc)
    simp only [List.cons_append, splitColon, List.append_eq]
    rw [if_neg (h a (List.mem_cons_self a t)), ht]

theorem parseU64_digits {l : RStr} (hd : ∀ c ∈ l, isDigit c = true) (hne : l ≠ [])
    (hlt : digitsVal l < 2 ^ 64) : parseU64 l = some (digitsVal l) := by
  have hhead : l.head? ≠ some 43 := by
    cases l with
    | nil => simp
    | cons a t =>
      have ha := hd a (List.mem_cons_self a t)
      simp only [isDigit] at ha
      simp only [List.head?_cons, ne_eq, Option.some.injEq]
      intro hq
      subst hq
      revert ha
      decide
  simp only [parseU64, if_neg hhead, if_neg hne, List.all_eq_true.mpr hd, if_true,
    if_pos hlt]

theorem durLoop_cons_digits {p : RStr} {rest : List RStr} {v mult : Nat}
    (hd : ∀ c ∈ p, 48 ≤ c ∧ c ≤ 57) (hne : p ≠ []) (hlt : digitsVal p < 2 ^ 64) :
    durLoop (p :: rest) v mult =
      durLoop rest ((v + satMul (digitsVal p) mult) % 2 ^ 64) (satMul mult 60) := by
  have htr : trimChars p = p := trimChars_eq_self fun x hx => isWs_false_of_ge (hd x hx).1
  have h45 : ¬ (45 ∈ p) := fun hx => by have := hd 45 hx; omega
  have hdig : ∀ c ∈ p, isDigit c = true := by
    intro c hc
    have := hd c hc
    simp [isDigit]
    omega
  simp only [durLoop, htr, if_neg hne, if_neg h45, parseU64_digits hdig hne hlt]

theorem digitsVal_twoDig {n : Nat} (_h : n < 100) : digitsVal (twoDig n) = n := by
  simp [digitsVal, twoDig]
  omega

theorem twoDig_mem {n c : Nat} (h : n < 100) (hc : c ∈ twoDig n) : 48 ≤ c ∧ c ≤ 57 := by
  simp [twoDig] at hc
  rcases hc with h1 | h1 <;> subst h1 <;> omega

theorem pow64_val : (2 : Nat) ^ 64 = 18446744073709551616 := by norm_num

theorem satMul_small {a b : Nat} (h : a * b < 18446744073709551616) :
    satMul a b = a * b := by
  unfold satMul u64max
  rw [pow64_val, Nat.min_def, if_pos (by omega)]

theorem mod64_small {a : Nat} (h : a < 18446744073709551616) : a % 2 ^ 64 = a := by
  rw [pow64_val]
  exact Nat.mod_eq_of_lt h

/-- General two-segment duration law: minutes-and-seconds texts parse to
`m * 60 + s`. -/
theorem duration_two_segments (m s : Nat) (hm : m < 100) (hs : s < 60) :
    parse_duration_secs (twoDig m ++ 58 :: twoDig s) = some (m * 60 + s) := by
  have hm57 : ∀ c ∈ twoDig m, 48 ≤ c ∧ c ≤ 57 := fun c hc => twoDig_mem hm hc
  have hs57 : ∀ c ∈ twoDig s, 48 ≤ c ∧ c ≤ 57 := fun c hc => twoDig_mem (by omega) hc
  have hall : ∀ c ∈ twoDig m ++ 58 :: twoDig s, isWs c = false := by
    intro c hc
    rcases List.mem_append.mp hc with h1 | h1
    · exact isWs_false_of_ge (hm57 c h1).1
    · rcases List.mem_cons.mp h1 with rfl | h2
      · exact isWs_false_of_ge (by omega)
      · exact isWs_false_of_ge (hs57 c h2).1
  have hne : twoDig m ++ 58 :: twoDig s ≠ [] := by simp [twoDig]
  have hsplit : splitColon (twoDig m ++ 58 :: twoDig s) = [twoDig m, twoDig s] := by
    rw [splitColon_append fun c hc => by have := hm57 c hc; omega]
    rw [splitColon_noColon fun c hc => by have := hs57 c hc; omega]
  rw [parse_duration_secs, trimChars_eq_self hall, if_neg hne, hsplit]
  rw [if_neg (by simp)]
  simp only [List.reverse_cons, List.reverse_nil, List.nil_append, List.cons_append]
  rw [durLoop_cons_digits hs57 (by simp [twoDig]) (by rw [digitsVal_twoDig (by omega)]; omega)]
  rw [durLoop_cons_digits hm57 (by simp [twoDig]) (by rw [digitsVal_twoDig hm]; omega)]
  rw [digitsVal_twoDig (by omega), digitsVal_twoDig hm]
  rw [satMul_small (show (1 : Nat) * 60 < 18446744073709551616 by norm_num)]
  rw [satMul_small (show s * 1 < 18446744073709551616 by omega)]
  rw [satMul_small (show m * (1 * 60) < 18446744073709551616 by omega)]
  simp only [durLoop, Option.some.injEq, pow64_val]
  omega

/-- General three-segment duration law: hours, minutes and seconds parse to
`h * 3600 + m * 60 + s`. -/
theorem duration_three_segments (h m s : Nat) (hh : h < 10) (hm : m < 60) (hs : s < 60) :
    parse_duration_secs ((48 + h) :: 58 :: (twoDig m ++ 58 :: twoDig s)) =
      some (h * 3600 + m * 60 + s) := by
  have hm57 : ∀ c ∈ twoDig m, 48 ≤ c ∧ c ≤ 57 := fun c hc => twoDig_mem (by omega) hc
  have hs57 : ∀ c ∈ twoDig s, 48 ≤ c ∧ c ≤ 57 := fun c hc => twoDig_mem (by omega) hc
  have hall : ∀ c ∈ (48 + h) :: 58 :: (twoDig m ++ 58 :: twoDig s), isWs c = false := by
    intro c hc
    rcases List.mem_cons.mp hc with rfl | hc
    · exact isWs_false_of_ge (by omega)
    rcases List.mem_cons.mp hc with rfl | hc
    · exact isWs_false_of_ge (by omega)
    rcases List.mem_append.mp hc with h1 | h1
    · exact isWs_false_of_ge (hm57 c h1).1
    · rcases List.mem_cons.mp h1 with rfl | h2
      · exact isWs_false_of_ge (by omega)
      · exact isWs_false_of_ge (hs57 c h2).1
  have hsplit : splitColon ((48 + h) :: 58 :: (twoDig m ++ 58 :: twoDig s)) =
      [[48 + h], twoDig m, twoDig s] := by
    have : (48 + h) :: 58 :: (twoDig m ++ 58 :: twoDig s) =
        [48 + h] ++ 58 :: (twoDig m ++ 58 :: twoDig s) := by simp
    rw [this, splitColon_append (by intro c hc; simp at hc; omega)]
    rw [splitColon_append fun c hc => by have := hm57 c hc; omega]
    rw [splitColon_noColon fun c hc => by have := hs57 c hc; omega]
  rw [parse_duration_secs, trimChars_eq_self hall, if_neg (by simp), hsplit]
  rw [if_neg (by simp)]
  simp only [List.reverse_cons, List.reverse_nil, List.nil_append, List.cons_append]
  rw [durLoop_cons_digits hs57 (by simp [twoDig]) (by rw [digitsVal_twoDig (by omega)]; omega)]
  rw [durLoop_cons_digits hm57 (by simp [twoDig]) (by rw [digitsVal_twoDig (by omega)]; omega)]
  rw [durLoop_cons_digits (by intro c hc; simp at hc; omega) (by simp)
    (by simp only [digitsVal, List.foldl]; omega)]
  have e0 : digitsVal [48 + h] = h := by simp only [digitsVal, List.foldl]; omega
  rw [digitsVal_twoDig (by omega), digitsVal_twoDig (by omega), e0]
  rw [satMul_small (show (1 : Nat) * 60 < 18446744073709551616 by norm_num)]
  rw [satMul_small (show (1 * 60 : Nat) * 60 < 18446744073709551616 by norm_num)]
  rw [satMul_small (show s * 1 < 18446744073709551616 by omega)]
  rw [satMul_small (show m * (1 * 60) < 18446744073709551616 by omega)]
  rw [satMul_small (show h * (1 * 60 * 60) < 18446744073709551616 by omega)]
  simp only [durLoop, Option.some.injEq, pow64_val]
  omega

/-- C8: parse_duration_secs interprets colon-delimited duration text with the
rightmost segment as seconds and each preceding segment multiplied by a
further factor of 60; blank input or more than three segments yields none;
"01:30" parses to 90, "1:02:03" parses to 3723 and "--:--" parses to none. -/
theorem C8_duration_parsing :
    parse_duration_secs (strLit "01:30") = some 90 ∧
    parse_duration_secs (strLit "1:02:03") = some 3723 ∧
    parse_duration_secs (strLit "--:--") = none ∧
    parse_duration_secs (strLit "") = none ∧
    parse_duration_secs (strLit "   ") = none ∧
    parse_duration_secs (strLit "1:2:3:4") = none ∧
    (∀ m s, m < 100 → s < 60 →
      parse_duration_secs (twoDig m ++ 58 :: twoDig s) = some (m * 60 + s)) ∧
    (∀ h m s, h < 10 → m < 60 → s < 60 →
      parse_duration_secs ((48 + h) :: 58 :: (twoDig m ++ 58 :: twoDig s)) =
        some (h * 3600 + m * 60 + s)) := by
  refine ⟨by decide, by decide, by decide, by decide, by decide, by decide, ?_, ?_⟩
  · exact duration_two_segments
  · exact duration_three_segments

/-- Witness for C8: the general laws applied at concrete segment values. -/
theorem C8_duration_parsing_witness :
    parse_duration_secs (twoDig 5 ++ 58 :: twoDig 7) = some (5 * 60 + 7) ∧
    parse_duration_secs ((48 + 1) :: 58 :: (twoDig 2 ++ 58 :: twoDig 3)) =
      some (1 * 3600 + 2 * 60 + 3) :=
  ⟨C8_duration_parsing.2.2.2.2.2.2.1 5 7 (by decide) (by decide),
   C8_duration_parsing.2.2.2.2.2.2.2 1 2 3 (by decide) (by decide) (by decide)⟩

theorem durLoop_none_of_bad {parts : List RStr} {p : RStr} (hp : p ∈ parts)
    (hbad : trimChars p = [] ∨ 45 ∈ trimChars p ∨ parseU64 (trimChars p) = none) :
    ∀ v mult, durLoop parts v mult = none := by
  induction parts with
  | nil => cases hp
  | cons q rest ih =>
    intro v mult
    by_cases h1 : trimChars q = []
    · simp [durLoop, h1]
    · by_cases h2 : 45 ∈ trimChars q
      · simp [durLoop, h1, h2]
      · cases h3 : parseU64 (trimChars q) with
        | none => simp [durLoop, h1, h2, h3]
        | some parsed =>
          rcases List.mem_cons.mp hp with heq | hmem
          · subst heq
            rcases hbad with hb | hb | hb
            · exact absurd hb h1
            · exact absurd hb h2
            · rw [hb] at h3
              cases h3
          · simp only [durLoop, if_neg h1, if_neg h2, h3]
            exact ih hmem _ _

/-- C4 (amended): a colon-separated segment that, after trimming, is empty,
contains a minus sign, or fails u64 parsing (is not an optional single
leading plus followed by digits with value below 2^64) makes
parse_duration_secs yield none.  A plus sign alone does not: Rust u64
parsing accepts one leading plus, so a segment such as "+5" parses. -/
theorem C4_segment_rejection : ∀ (s p : RStr), p ∈ splitColon (trimChars s) →
    (trimChars p = [] ∨ 45 ∈ trimChars p ∨ parseU64 (trimChars p) = none) →
    parse_duration_secs s = none := by
  intro s p hp hbad
  rw [parse_duration_secs]
  by_cases h0 : trimChars s = []
  · rw [if_pos h0]
  · rw [if_neg h0]
    by_cases h1 : splitColon (trimChars s) = [] ∨ (splitColon (trimChars s)).length > 3
    · rw [if_pos h1]
    · rw [if_neg h1]
      exact durLoop_none_of_bad (List.mem_reverse.mpr hp) hbad 0 1

/-- Witness for C4 (amended): "1:x" has the non-digit segment "x", so it
parses to none. -/
theorem C4_segment_rejection_witness : parse_duration_secs (strLit "1:x") = none :=
  C4_segment_rejection (strLit "1:x") (strLit "x") (by decide) (by decide)

/-- Counterexample to C4 as stated: the duration text "+5" has a segment
containing the sign character '+' (code point 43), yet it parses to 5
seconds rather than none, because Rust u64 parsing accepts a single leading
plus sign. -/
theorem C4_sign_counterexample :
    parse_duration_secs (strLit "+5") = some 5 ∧
    43 ∈ strLit "+5" ∧
    splitColon (trimChars (strLit "+5")) = [strLit "+5"] := by decide

/-- Spec-side instrument: replace only the title and zone of a snapshot. -/
def setTitleZone (s : EncounterSnapshot) (title zone : RStr) : EncounterSnapshot :=
  { s with encounter := { s.encounter with title := title, zone := zone } }

/-- Spec-side instrument: replace only the active flag of a snapshot. -/
def setActiveFlag (s : EncounterSnapshot) (active : Bool) : EncounterSnapshot :=
  { s with encounter := { s.encounter with is_active := active } }

/-- C2 (amended): should_rollover fires exactly when the incoming snapshot is
active and either the sticky activity flag is false, both durations parse and
the incoming seconds plus two — computed in wrapping u64 arithmetic, as the
release build does — are below the previous seconds, both parse with the
previous one above ten seconds and the incoming one zero, or the incoming
damage plus one is below the previous damage; title or zone changes alone
never fire it, and an inactive incoming snapshot never fires it. -/
theorem C2_boundary_decision : ∀ (a : ActiveEncounter) (s : EncounterSnapshot),
    (should_rollover a s = true ↔
      s.encounter.is_active = true ∧
        (a.saw_active = false ∨
         (∃ prev next,
            parse_duration_secs a.latest_summary.duration = some prev ∧
            parse_duration_secs s.encounter.duration = some next ∧
            ((next + 2) % 2 ^ 64 < prev ∨ (prev > 10 ∧ next = 0))) ∨
         parse_number s.encounter.damage + 1 < parse_number a.latest_summary.damage)) ∧
    (∀ title zone, should_rollover a (setTitleZone s title zone) = should_rollover a s) ∧
    should_rollover a (setActiveFlag s false) = false := by
  intro a s
  refine ⟨?_, fun title zone => rfl, rfl⟩
  cases hact : s.encounter.is_active with
  | false => simp [should_rollover, hact]
  | true =>
    cases hsaw : a.saw_active with
    | false => simp [should_rollover, hact, hsaw]
    | true =>
      simp only [should_rollover, hact, hsaw, if_true]
      cases hp : parse_duration_secs a.latest_summary.duration with
      | none => simp [hp, decide_eq_true_eq]
      | some prev =>
        cases hn : parse_duration_secs s.encounter.duration with
        | none => simp [hn, decide_eq_true_eq]
        | some next =>
          by_cases hc1 : (next + 2) % 2 ^ 64 < prev
          · simp [hp, hn, hc1]
          · by_cases hc2 : prev > 10 ∧ next = 0
            · simp [hp, hn, hc1, hc2]
            · simp [hp, hn, hc1, hc2, decide_eq_true_eq]

/-- An accumulator with sticky activity, previous duration "20" and zero
damage, used by the C2 counterexample. -/
def wrapAccum : ActiveEncounter :=
  ActiveEncounter.from_snapshot
    { encounter :=
        { title := [], zone := [], duration := strLit "20", encdps := strLit "0",
          damage := strLit "0", enchps := strLit "0", healed := strLit "0",
          is_active := true }
      rows := []
      raw := 0
      received_ms := 0 }

/-- An active incoming snapshot whose duration text parses to 2^64 - 2, used
by the C2 counterexample. -/
def wrapIncoming : EncounterSnapshot :=
  { encounter :=
      { title := [], zone := [], duration := strLit "18446744073709551614",
        encdps := strLit "0", damage := strLit "0", enchps := strLit "0",
        healed := strLit "0", is_active := true }
    rows := []
    raw := 0
    received_ms := 1 }

/-- Counterexample to C2 as stated: with previous duration "20" and incoming
duration "18446744073709551614" the u64 sum `incoming_seconds + 2` wraps to 0
in the release build and the boundary fires, yet none of the claim's four
conditions — its duration comparison read over unbounded integers — holds, so
the claimed characterization is false of the program. -/
theorem C2_wrap_counterexample :
    should_rollover wrapAccum wrapIncoming = true ∧
    ¬(wrapIncoming.encounter.is_active = true ∧
      (wrapAccum.saw_active = false ∨
       (∃ prev next,
          parse_duration_secs wrapAccum.latest_summary.duration = some prev ∧
          parse_duration_secs wrapIncoming.encounter.duration = some next ∧
          (next + 2 < prev ∨ (prev > 10 ∧ next = 0))) ∨
       parse_number wrapIncoming.encounter.damage + 1 <
         parse_number wrapAccum.latest_summary.damage)) := by
  refine ⟨by decide, ?_⟩
  rintro ⟨-, hdisj⟩
  rcases hdisj with hsaw | ⟨prev, next, hp, hn, hcond⟩ | hdmg
  · exact absurd hsaw (by decide)
  · have e1 : parse_duration_secs wrapAccum.latest_summary.duration = some 20 := by decide
    have e2 : parse_duration_secs wrapIncoming.encounter.duration =
        some 18446744073709551614 := by decide
    rw [e1] at hp
    rw [e2] at hn
    injection hp with hp
    injection hn with hn
    subst hp
    subst hn
    rcases hcond with h | ⟨h1, h2⟩ <;> omega
  · rw [show parse_number wrapIncoming.encounter.damage = ((0 : Nat) : ℚ) from rfl,
      show parse_number wrapAccum.latest_summary.damage = ((0 : Nat) : ℚ) from rfl] at hdmg
    norm_num at hdmg

theorem stepDungeon_noCatalog {rec : DungeonRecorder} (h1 : rec.catalog = none)
    (h2 : rec.session = none) (op : DungeonOp) :
    (stepDungeon rec op).1.catalog = none ∧ (stepDungeon rec op).1.session = none ∧
    (stepDungeon rec op).2 = emptyUpdate := by
  cases op with
  | enc record key =>
    by_cases he : rec.enabled = false <;>
      simp [stepDungeon, DungeonRecorder.on_encounter, he, h1, h2]
  | setE b =>
    simp [stepDungeon, DungeonRecorder.set_enabled, DungeonRecorder.end_session, h1, h2]
  | fl inc =>
    simp [stepDungeon, DungeonRecorder.flush, DungeonRecorder.end_session, h1, h2]

theorem runDungeon_noCatalog : ∀ (ops : List DungeonOp) (rec : DungeonRecorder),
    rec.catalog = none → rec.session = none →
    (runDungeon rec ops).1.session = none ∧
    (runDungeon rec ops).2.all
      (fun u => u.aggregates.isEmpty && u.zone_state.isNone) = true := by
  intro ops
  induction ops with
  | nil =>
    intro rec h1 h2
    exact ⟨h2, rfl⟩
  | cons op rest ih =>
    intro rec h1 h2
    obtain ⟨g1, g2, g3⟩ := stepDungeon_noCatalog h1 h2 op
    obtain ⟨r1, r2⟩ := ih (stepDungeon rec op).1 g1 g2
    simp only [runDungeon]
    exact ⟨r1, by simp [List.all_cons, g3, emptyUpdate, r2]⟩

/-- C5: constructed without a catalogue, the dungeon recorder never opens a
session and no call ever returns an aggregate or a zone-state change,
whatever the enabled flag at construction and whatever sequence of
on_encounter, set_enabled and flush calls follows. -/
theorem C5_no_catalog_disables : ∀ (enabled : Bool) (ops : List DungeonOp),
    (runDungeon (DungeonRecorder.new none enabled) ops).1.session = none ∧
    (runDungeon (DungeonRecorder.new none enabled) ops).2.all
      (fun u => u.aggregates.isEmpty && u.zone_state.isNone) = true := by
  intro enabled ops
  exact runDungeon_noCatalog ops _ rfl rfl

/-- C6: an open session is closed with incomplete=false and an Inactive
notification when an encounter in an uncatalogued zone arrives (the record
itself joining nothing), closed with incomplete=true and an Inactive
notification by set_enabled(false), and set_enabled can never create a
session, so re-enabling never resumes a closed one. -/
theorem C6_closure_causes :
    (∀ (rec : DungeonRecorder) (cat : DungeonCatalog) (s : DungeonSession)
       (record : EncounterRecord) (key : List Nat),
       rec.enabled = true → rec.catalog = some cat → rec.session = some s →
       cat.canonical_zone record.encounter.zone = none →
       rec.on_encounter record key =
         ({ rec with session := none },
          ⟨[s.into_record false], some DungeonZoneState.Inactive⟩)) ∧
    (∀ (rec : DungeonRecorder) (s : DungeonSession), rec.session = some s →
       rec.set_enabled false =
         ({ rec with enabled := false, session := none },
          ⟨[s.into_record true], some DungeonZoneState.Inactive⟩)) ∧
    (∀ (rec : DungeonRecorder) (enabled : Bool),
       (rec.set_enabled enabled).1.session =
         if enabled && rec.catalog.isSome then rec.session else none) := by
  refine ⟨?_, ?_, ?_⟩
  · intro rec cat s record key he hc hs hz
    simp [DungeonRecorder.on_encounter, DungeonRecorder.end_session, he, hc, hs, hz]
  · intro rec s hs
    simp [DungeonRecorder.set_enabled, DungeonRecorder.end_session, hs]
  · intro rec enabled
    by_cases he : (enabled && rec.catalog.isSome) = true
    · simp [DungeonRecorder.set_enabled, DungeonRecorder.end_session, he]
    · have he2 : (enabled && rec.catalog.isSome) = false := by
        revert he
        cases enabled && rec.catalog.isSome <;> simp
      cases hs : rec.session <;>
        simp [DungeonRecorder.set_enabled, DungeonRecorder.end_session, he2, hs]

/-- A catalogue holding the single zone "Sastasha", used by concrete runs. -/
def sampleCatalog : DungeonCatalog := DungeonCatalog.from_raw [strLit "Sastasha"]

/-- A closed encounter record in a given zone with the given title, duration
text and damage text, as handed to the dungeon recorder. -/
def sampleRecord (zone title duration damage : String) : EncounterRecord :=
  { version := SCHEMA_VERSION
    stored_ms := 0
    first_seen_ms := 100
    last_seen_ms := 200
    encounter :=
      { title := strLit title, zone := strLit zone, duration := strLit duration,
        encdps := strLit "", damage := strLit damage, enchps := strLit "",
        healed := strLit "0", is_active := false }
    rows := []
    raw_last := none
    snapshots := 1
    saw_active := true
    frames := [] }

/-- The run behind C7: two consecutive Sastasha encounters, then a flush. -/
def c7run : DungeonRecorder × List DungeonRecorderUpdate :=
  runDungeon (DungeonRecorder.new (some sampleCatalog) true)
    [DungeonOp.enc (sampleRecord "Sastasha" "Pull 1" "00:30" "10000") [1],
     DungeonOp.enc (sampleRecord "Sastasha" "Pull 2" "00:45" "15000") [2],
     DungeonOp.fl false]

/-- All aggregates emitted during the C7 run, in order. -/
def c7aggregates : List DungeonAggregateRecord :=
  c7run.2.foldr (fun u acc => u.aggregates ++ acc) []

/-- C7: two consecutive encounters in the same catalogued zone with durations
30s and 45s and damages 10000 and 15000 aggregate into exactly one dungeon
record with total_duration_secs 75, total_damage 25000, two child keys and
total_rate 25000/75; in general every closed session record carries
total_rate = total_damage / total_duration_secs when the duration is positive
and total_rate = 0 otherwise. -/
theorem C7_aggregation :
    (c7aggregates.map fun a => a.total_duration_secs) = [75] ∧
    (c7aggregates.map fun a => a.total_damage) = [25000] ∧
    (c7aggregates.map fun a => a.child_keys.length) = [2] ∧
    (c7aggregates.map fun a => a.total_encdps) = [25000 / 75] ∧
    (∀ (s : DungeonSession) (incomplete : Bool),
      (s.into_record incomplete).total_encdps =
        if (s.into_record incomplete).total_duration_secs > 0 then
          (s.into_record incomplete).total_damage /
            ((s.into_record incomplete).total_duration_secs : ℚ)
        else 0) := by
  have p1 : parse_number (strLit "10000") = ((10000 : Nat) : ℚ) := rfl
  have p2 : parse_number (strLit "15000") = ((15000 : Nat) : ℚ) := rfl
  refine ⟨by decide, ?_, by decide, ?_, fun s incomplete => rfl⟩
  · have hrun : (c7aggregates.map fun a => a.total_damage) =
        [0 + parse_number (strLit "10000") + parse_number (strLit "15000")] := rfl
    rw [hrun, p1, p2]
    norm_num
  · have hrun : (c7aggregates.map fun a => a.total_encdps) =
        [(0 + parse_number (strLit "10000") + parse_number (strLit "15000")) /
          ((75 : Nat) : ℚ)] := rfl
    rw [hrun, p1, p2]
    norm_num

/-- C9: closing an accumulator whose sticky activity flag is false and whose
row list is empty persists nothing: the encounter store, the dungeon recorder
state, the dungeon store and the notifications are untouched; only the
accumulator slot is cleared. -/
theorem C9_empty_encounter_discarded : ∀ (now : Nat) (w : RecorderWorker)
    (a : ActiveEncounter), w.current = some a → a.saw_active = false →
    a.latest_rows = [] → flush_active now w = { w with current := none } := by
  intro now w a hc hsaw hrows
  simp only [flush_active, hc]
  rw [if_pos ⟨show (EncounterRecord.from_active now a).saw_active = false from hsaw,
    show (EncounterRecord.from_active now a).rows = [] from hrows⟩]

/-- An inactive, row-free accumulator used by the C9 witness. -/
def idleAccum : ActiveEncounter :=
  ActiveEncounter.from_snapshot
    { encounter :=
        { title := [], zone := [], duration := strLit "00:00", encdps := strLit "0",
          damage := strLit "0", enchps := strLit "0", healed := strLit "0",
          is_active := false }
      rows := []
      raw := 0
      received_ms := 0 }

/-- A worker holding only the idle accumulator, used by the C9 witness. -/
def c9worker : RecorderWorker := { initWorker none false with current := some idleAccum }

/-- Witness for C9: flushing the idle accumulator only clears the slot. -/
theorem C9_empty_encounter_discarded_witness :
    flush_active 0 c9worker = { c9worker with current := none } :=
  C9_empty_encounter_discarded 0 c9worker idleAccum rfl rfl rfl

/-- C1 (amended): with no accumulator open, a snapshot is ignored exactly when
its active flag is false; when the flag is true an accumulator is always
created, because snapshot_has_activity counts the active flag itself as
activity, so the activity test never filters an active snapshot — even one
whose summary figures and rows are all zero. -/
theorem C1_opening_gate : ∀ (now : Nat) (w : RecorderWorker)
    (snapshot : EncounterSnapshot), w.current = none →
    ((snapshot.encounter.is_active = false → onSnapshot now w snapshot = w) ∧
     (snapshot.encounter.is_active = true →
       onSnapshot now w snapshot =
         { w with current := some (ActiveEncounter.from_snapshot snapshot) }) ∧
     (snapshot.encounter.is_active = true → snapshot_has_activity snapshot = true)) := by
  intro now w snapshot hc
  have hact : snapshot.encounter.is_active = true → snapshot_has_activity snapshot = true := by
    intro h
    simp [snapshot_has_activity, h]
  refine ⟨?_, ?_, hact⟩
  · intro h
    simp [onSnapshot, hc, h]
  · intro h
    simp only [onSnapshot, hc]
    rw [if_neg (by simp [h]), if_neg (by simp [hact h])]
    simp [ingest, hc, ActiveEncounter.from_snapshot, h]

/-- An active snapshot whose summary figures are all zero and whose row list
is empty. -/
def zeroSnapshot : EncounterSnapshot :=
  { encounter :=
      { title := [], zone := [], duration := strLit "00:00", encdps := strLit "0",
        damage := strLit "0", enchps := strLit "0", healed := strLit "0",
        is_active := true }
    rows := []
    raw := 0
    received_ms := 0 }

/-- Counterexample to C1 as stated: an incoming active snapshot whose summary
numbers and rows are all zero DOES open an accumulator, because
snapshot_has_activity returns true for any active snapshot before looking at
the figures. -/
theorem C1_zero_opening_counterexample :
    parse_number zeroSnapshot.encounter.damage = 0 ∧
    parse_number zeroSnapshot.encounter.healed = 0 ∧
    parse_number zeroSnapshot.encounter.encdps = 0 ∧
    parse_number zeroSnapshot.encounter.enchps = 0 ∧
    zeroSnapshot.rows = [] ∧
    zeroSnapshot.encounter.is_active = true ∧
    (onSnapshot 0 (initWorker none false) zeroSnapshot).current =
      some (ActiveEncounter.from_snapshot zeroSnapshot) := by
  refine ⟨rfl, rfl, rfl, rfl, rfl, rfl, by decide⟩

/-- Witness for C1 (amended): the gate applied to the all-zero active
snapshot from the empty worker. -/
theorem C1_opening_gate_witness :
    onSnapshot 0 (initWorker none false) zeroSnapshot =
      { initWorker none false with
        current := some (ActiveEncounter.from_snapshot zeroSnapshot) } :=
  (C1_opening_gate 0 (initWorker none false) zeroSnapshot rfl).2.1 rfl

/-- The segmentation invariant behind C10: any accumulator held by the worker
has its sticky activity flag set. -/
def WInv (w : RecorderWorker) : Prop :=
  ∀ a, w.current = some a → a.saw_active = true

theorem flush_active_current (now : Nat) (w : RecorderWorker) :
    (flush_active now w).current = none := by
  cases hc : w.current with
  | none => simp [flush_active, hc]
  | some a =>
    simp only [flush_active, hc]
    split
    · rfl
    · rfl

theorem should_rollover_active {a : ActiveEncounter} {s : EncounterSnapshot}
    (h : should_rollover a s = true) : s.encounter.is_active = true := by
  by_contra hn
  have hfalse : s.encounter.is_active = false := by
    revert hn
    cases s.encounter.is_active <;> simp
  rw [should_rollover, hfalse] at h
  simp at h

theorem ingest_winv {now : Nat} {w : RecorderWorker} {s : EncounterSnapshot}
    (hw : WInv w) (hnone : w.current = none → s.encounter.is_active = true) :
    WInv (ingest now w s) := by
  cases hc : w.current with
  | none =>
    have hact := hnone hc
    intro a ha
    simp only [ingest, hc, ActiveEncounter.from_snapshot, hact] at ha
    simp at ha
    rw [← ha]
  | some act =>
    by_cases hr : should_rollover act s = true
    · have hact := should_rollover_active hr
      intro a ha
      simp only [ingest, hc, hr, if_true, flush_active_current,
        ActiveEncounter.from_snapshot, hact] at ha
      simp at ha
      rw [← ha]
    · have hr2 : should_rollover act s = false := by
        revert hr
        cases should_rollover act s <;> simp
      have hsaw := hw act hc
      intro a ha
      simp only [ingest, hc, hr2, Bool.false_eq_true, if_false] at ha
      by_cases hia : s.encounter.is_active = false
      · simp only [ActiveEncounter.update, hia, if_true, flush_active_current] at ha
        cases ha
      · have hia2 : s.encounter.is_active = true := by
          revert hia
          cases s.encounter.is_active <;> simp
        simp only [ActiveEncounter.update, hia2] at ha
        simp at ha
        rw [← ha]

theorem onFlush_current (now : Nat) (w : RecorderWorker) :
    (onFlush now w).current = none := by
  simp [onFlush, handleDungeonUpdate, flush_active_current]

theorem stepWorker_winv {w : RecorderWorker} (hw : WInv w)
    (msg : Nat × RecorderMessage) : WInv (stepWorker w msg) := by
  obtain ⟨now, m⟩ := msg
  cases m with
  | snapshot s =>
    cases hc : w.current with
    | none =>
      simp only [stepWorker, onSnapshot, hc]
      by_cases h1 : s.encounter.is_active = false
      · rw [if_pos h1]
        exact hw
      · rw [if_neg h1]
        have h1t : s.encounter.is_active = true := by
          revert h1
          cases s.encounter.is_active <;> simp
        by_cases h2 : snapshot_has_activity s = false
        · rw [if_pos h2]
          exact hw
        · rw [if_neg h2]
          exact ingest_winv hw fun _ => h1t
    | some act =>
      simp only [stepWorker, onSnapshot, hc]
      exact ingest_winv hw fun h => by rw [hc] at h; cases h
  | flushMsg =>
    intro a ha
    rw [show stepWorker w (now, RecorderMessage.flushMsg) = onFlush now w from rfl,
      onFlush_current now w] at ha
    cases ha
  | toggle b =>
    intro a ha
    exact hw a ha

theorem runWorker_winv : ∀ (msgs : List (Nat × RecorderMessage))
    (w : RecorderWorker), WInv w → WInv (runWorker w msgs) := by
  intro msgs
  induction msgs with
  | nil => exact fun w hw => hw
  | cons msg rest ih =>
    intro w hw
    simp only [runWorker, List.foldl_cons]
    exact ih (stepWorker w msg) (stepWorker_winv hw msg)

/-- C10: from any initial configuration, every accumulator the worker holds
after processing any message sequence has its sticky activity flag true, so
the never-saw-activity rollover branch and the empty-encounter discard
condition can never be satisfied during operation. -/
theorem C10_sticky_activity_invariant : ∀ (catalog : Option DungeonCatalog)
    (enabled : Bool) (msgs : List (Nat × RecorderMessage)) (a : ActiveEncounter),
    (runWorker (initWorker catalog enabled) msgs).current = some a →
    a.saw_active = true := by
  intro catalog enabled msgs a ha
  refine runWorker_winv msgs (initWorker catalog enabled) ?_ a ha
  intro x hx
  simp [initWorker] at hx

/-- Witness for C10: one active snapshot leaves an accumulator whose sticky
flag the invariant shows to be true. -/
theorem C10_sticky_activity_invariant_witness :
    (ActiveEncounter.from_snapshot zeroSnapshot).saw_active = true :=
  C10_sticky_activity_invariant none false [(0, RecorderMessage.snapshot zeroSnapshot)]
    (ActiveEncounter.from_snapshot zeroSnapshot) (by decide)

/-- A one-encounter Sastasha session used by the C6 witness. -/
def c6session : DungeonSession :=
  DungeonSession.new (strLit "Sastasha") (sampleRecord "Sastasha" "Pull 1" "00:30" "1000") [1]

/-- A dungeon recorder with that session open, used by the C6 witness. -/
def c6recorder : DungeonRecorder :=
  { catalog := some sampleCatalog, enabled := true, session := some c6session }

/-- Witness for C6: a concrete unmatched-zone closure and a concrete
disable-closure. -/
theorem C6_closure_causes_witness :
    c6recorder.on_encounter (sampleRecord "Middle La Noscea" "FATE" "00:15" "500") [2] =
      ({ c6recorder with session := none },
       ⟨[c6session.into_record false], some DungeonZoneState.Inactive⟩) ∧
    c6recorder.set_enabled false =
      ({ c6recorder with enabled := false, session := none },
       ⟨[c6session.into_record true], some DungeonZoneState.Inactive⟩) :=
  ⟨C6_closure_causes.1 c6recorder sampleCatalog c6session
      (sampleRecord "Middle La Noscea" "FATE" "00:15" "500") [2] rfl rfl rfl (by decide),
   C6_closure_causes.2.1 c6recorder c6session rfl⟩

theorem toLowerC_ws {a b : Nat} (h : toLowerC a = toLowerC b) : isWs a = isWs b := by
  rw [isWs_eq_decide, isWs_eq_decide, decide_eq_decide]
  unfold toLowerC at h
  split_ifs at h <;> omega

theorem map_toLower_collapseAux : ∀ {s t : RStr} (f : Bool),
    s.map toLowerC = t.map toLowerC →
    (collapseAux s f).map toLowerC = (collapseAux t f).map toLowerC := by
  intro s
  induction s with
  | nil =>
    intro t f h
    have ht : t = [] := by
      cases t with
      | nil => rfl
      | cons b tb => simp at h
    subst ht
    rfl
  | cons a sa ih =>
    intro t f h
    cases t with
    | nil => simp at h
    | cons b tb =>
      simp only [List.map_cons, List.cons.injEq] at h
      obtain ⟨h1, h2⟩ := h
      have hw := toLowerC_ws h1
      cases hwa : isWs a with
      | true =>
        have hwb : isWs b = true := by rw [← hw]; exact hwa
        cases f with
        | true => simpa only [collapseAux, hwa, hwb, if_true] using ih true h2
        | false =>
          simp only [collapseAux, hwa, hwb, if_true, Bool.false_eq_true, if_false,
            List.map_cons]
          rw [ih true h2]
      | false =>
        have hwb : isWs b = false := by rw [← hw]; exact hwa
        simp only [collapseAux, hwa, hwb, Bool.false_eq_true, if_false, List.map_cons]
        rw [h1, ih false h2]

theorem map_toLower_ltrim : ∀ {s t : RStr}, s.map toLowerC = t.map toLowerC →
    (ltrim s).map toLowerC = (ltrim t).map toLowerC := by
  intro s
  induction s with
  | nil =>
    intro t h
    have ht : t = [] := by
      cases t with
      | nil => rfl
      | cons b tb => simp at h
    subst ht
    rfl
  | cons a sa ih =>
    intro t h
    cases t with
    | nil => simp at h
    | cons b tb =>
      simp only [List.map_cons, List.cons.injEq] at h
      obtain ⟨h1, h2⟩ := h
      have hw := toLowerC_ws h1
      cases hwa : isWs a with
      | true =>
        have hwb : isWs b = true := by rw [← hw]; exact hwa
        simp only [ltrim, List.dropWhile_cons, hwa, hwb, if_true]
        exact ih h2
      | false =>
        have hwb : isWs b = false := by rw [← hw]; exact hwa
        simp only [ltrim, List.dropWhile_cons, hwa, hwb, Bool.false_eq_true, if_false,
          List.map_cons]
        rw [h1, h2]

theorem map_toLower_rtrim {s t : RStr} (h : s.map toLowerC = t.map toLowerC) :
    (rtrim s).map toLowerC = (rtrim t).map toLowerC := by
  have hrev : s.reverse.map toLowerC = t.reverse.map toLowerC := by
    rw [List.map_reverse, List.map_reverse, h]
  have hdrop := map_toLower_ltrim hrev
  unfold ltrim at hdrop
  unfold rtrim
  rw [List.map_reverse, List.map_reverse, hdrop]

theorem map_toLower_trim {s t : RStr} (h : s.map toLowerC = t.map toLowerC) :
    (trimChars s).map toLowerC = (trimChars t).map toLowerC :=
  map_toLower_rtrim (map_toLower_ltrim h)

theorem normalize_zone_map_toLower {z1 z2 : RStr} (h : z1.map toLowerC = z2.map toLowerC) :
    normalize_zone z1 = normalize_zone z2 := by
  have hc : (collapse_whitespace (trimChars z1)).map toLowerC =
      (collapse_whitespace (trimChars z2)).map toLowerC := by
    unfold collapse_whitespace
    exact map_toLower_trim (map_toLower_collapseAux false (map_toLower_trim h))
  unfold normalize_zone
  by_cases h1 : collapse_whitespace (trimChars z1) = []
  · have h2 : collapse_whitespace (trimChars z2) = [] := by
      have := congrArg List.length hc
      simp only [List.length_map] at this
      rw [h1] at this
      exact List.length_eq_zero.mp this.symm
    simp [h1, h2]
  · have h2 : collapse_whitespace (trimChars z2) ≠ [] := by
      intro hx
      apply h1
      have := congrArg List.length hc
      simp only [List.length_map] at this
      rw [hx] at this
      exact List.length_eq_zero.mp this
    simp only [h1, h2, if_neg, ite_false]
    rw [hc]

theorem dropWhile_append_allP {p : Nat → Bool} : ∀ {w x : RStr}, w.all p = true →
    (w ++ x).dropWhile p = x.dropWhile p := by
  intro w x
  induction w with
  | nil => intro _; rfl
  | cons a t ih =>
    intro h
    simp only [List.all_cons, Bool.and_eq_true] at h
    simp only [List.cons_append, List.dropWhile_cons, h.1, if_true]
    exact ih h.2

theorem all_rev {p : Nat → Bool} {l : RStr} (h : l.all p = true) :
    l.reverse.all p = true := by
  rw [List.all_eq_true] at h ⊢
  intro x hx
  exact h x (List.mem_reverse.mp hx)

theorem ltrim_append_cases : ∀ (z w : RStr),
    ltrim (z ++ w) = if ltrim z = [] then ltrim w else ltrim z ++ w := by
  intro z w
  induction z with
  | nil => simp [ltrim]
  | cons a t ih =>
    cases hwa : isWs a with
    | true =>
      simp only [List.cons_append, ltrim, List.dropWhile_cons, hwa, if_true]
      exact ih
    | false =>
      simp [ltrim, List.dropWhile_cons, hwa]

theorem rtrim_append_allWs {x w : RStr} (hw : w.all isWs = true) :
    rtrim (x ++ w) = rtrim x := by
  unfold rtrim
  rw [List.reverse_append, dropWhile_append_allP (all_rev hw)]

theorem ltrim_of_allWs {w : RStr} (hw : w.all isWs = true) : ltrim w = [] := by
  induction w with
  | nil => rfl
  | cons a t ih =>
    simp only [List.all_cons, Bool.and_eq_true] at hw
    simp only [ltrim, List.dropWhile_cons, hw.1, if_true]
    exact ih hw.2

theorem trimChars_pad {z w1 w2 : RStr} (h1 : w1.all isWs = true)
    (h2 : w2.all isWs = true) : trimChars (w1 ++ z ++ w2) = trimChars z := by
  unfold trimChars
  have e1 : ltrim (w1 ++ z ++ w2) = ltrim (z ++ w2) := by
    rw [List.append_assoc]
    exact dropWhile_append_allP h1
  rw [e1, ltrim_append_cases z w2]
  by_cases hz : ltrim z = []
  · rw [if_pos hz, ltrim_of_allWs h2, hz]
  · rw [if_neg hz]
    exact rtrim_append_allWs h2

theorem normalize_zone_pad {z w1 w2 : RStr} (h1 : w1.all isWs = true)
    (h2 : w2.all isWs = true) :
    normalize_zone (w1 ++ z ++ w2) = normalize_zone z := by
  unfold normalize_zone
  rw [trimChars_pad h1 h2]

/-- Proof-side instrument: the whitespace flag of `collapseAux` after a list
has been processed. -/
def endFlag : RStr → Bool → Bool
  | [], f => f
  | c :: rest, _ => endFlag rest (isWs c)

theorem collapseAux_append : ∀ (a b : RStr) (f : Bool),
    collapseAux (a ++ b) f = collapseAux a f ++ collapseAux b (endFlag a f) := by
  intro a
  induction a with
  | nil => intro b f; rfl
  | cons c t ih =>
    intro b f
    cases hwc : isWs c with
    | true =>
      cases f with
      | true =>
        simp only [List.cons_append, collapseAux, hwc, if_true, endFlag]
        exact ih b true
      | false =>
        simp only [List.cons_append, collapseAux, hwc, if_true, Bool.false_eq_true,
          if_false, endFlag, List.cons_append]
        exact congrArg (fun x => 32 :: x) (ih b true)
    | false =>
      simp only [List.cons_append, collapseAux, hwc, Bool.false_eq_true, if_false,
        endFlag, List.cons_append]
      exact congrArg (fun x => c :: x) (ih b false)

theorem collapseAux_allWs_true {w : RStr} (hw : w.all isWs = true) :
    collapseAux w true = [] := by
  induction w with
  | nil => rfl
  | cons a t ih =>
    simp only [List.all_cons, Bool.and_eq_true] at hw
    simp only [collapseAux, hw.1, if_true]
    exact ih hw.2

theorem collapseAux_allWs_false {w : RStr} (hw : w.all isWs = true) (hne : w ≠ []) :
    collapseAux w false = [32] := by
  cases w with
  | nil => exact absurd rfl hne
  | cons a t =>
    simp only [List.all_cons, Bool.and_eq_true] at hw
    simp only [collapseAux, hw.1, if_true, Bool.false_eq_true, if_false]
    rw [collapseAux_allWs_true hw.2]

theorem collapseAux_allWs_all {w : RStr} (hw : w.all isWs = true) (f : Bool) :
    (collapseAux w f).all isWs = true := by
  cases f with
  | true => rw [collapseAux_allWs_true hw]; rfl
  | false =>
    cases hne : w == [] with
    | true =>
      have : w = [] := by simpa using hne
      subst this
      rfl
    | false =>
      have : w ≠ [] := by simpa using hne
      rw [collapseAux_allWs_false hw this]
      decide

theorem endFlag_allWs : ∀ {w : RStr}, w.all isWs = true → w ≠ [] → ∀ f, endFlag w f = true := by
  intro w
  induction w with
  | nil => intro _ hne; exact absurd rfl hne
  | cons a t ih =>
    intro hw _ f
    simp only [List.all_cons, Bool.and_eq_true] at hw
    simp only [endFlag, hw.1]
    cases t with
    | nil => rfl
    | cons b u => exact ih hw.2 (by simp) true

theorem collapseAux_ltrim_true : ∀ (r : RStr),
    collapseAux (ltrim r) false = ltrim (collapseAux r true) := by
  intro r
  induction r with
  | nil => rfl
  | cons d t ih =>
    cases hwd : isWs d with
    | true =>
      simp only [ltrim, List.dropWhile_cons, hwd, if_true, collapseAux]
      exact ih
    | false =>
      simp only [ltrim, List.dropWhile_cons, hwd, Bool.false_eq_true, if_false, collapseAux]

theorem collapseAux_ltrim : ∀ (s : RStr),
    collapseAux (ltrim s) false = ltrim (collapseAux s false) := by
  intro s
  cases s with
  | nil => rfl
  | cons c r =>
    cases hwc : isWs c with
    | true =>
      simp only [ltrim, List.dropWhile_cons, hwc, if_true, collapseAux,
        Bool.false_eq_true, if_false, show isWs 32 = true from rfl]
      exact collapseAux_ltrim_true r
    | false =>
      simp only [ltrim, List.dropWhile_cons, hwc, Bool.false_eq_true, if_false, collapseAux]

theorem all_takeWhile {p : Nat → Bool} : ∀ (l : RStr), (l.takeWhile p).all p = true := by
  intro l
  induction l with
  | nil => rfl
  | cons a t ih =>
    cases hp : p a with
    | true => simp [List.takeWhile_cons, hp, ih]
    | false => simp [List.takeWhile_cons, hp]

theorem rtrim_decompose (y : RStr) :
    y = rtrim y ++ (y.reverse.takeWhile isWs).reverse ∧
      ((y.reverse.takeWhile isWs).reverse).all isWs = true := by
  constructor
  · unfold rtrim
    rw [← List.reverse_append, List.takeWhile_append_dropWhile, List.reverse_reverse]
  · exact all_rev (all_takeWhile y.reverse)

theorem rtrim_collapseAux (y : RStr) :
    rtrim (collapseAux (rtrim y) false) = rtrim (collapseAux y false) := by
  obtain ⟨hy, hw⟩ := rtrim_decompose y
  conv_rhs => rw [hy]
  rw [collapseAux_append]
  exact (rtrim_append_allWs (collapseAux_allWs_all hw _)).symm

theorem ltrim_head_cases (s : RStr) :
    ltrim s = [] ∨ ∃ a t, ltrim s = a :: t ∧ isWs a = false := by
  induction s with
  | nil => exact Or.inl rfl
  | cons c r ih =>
    cases hwc : isWs c with
    | true =>
      simp only [ltrim, List.dropWhile_cons, hwc, if_true]
      exact ih
    | false =>
      refine Or.inr ⟨c, r, ?_, hwc⟩
      simp only [ltrim, List.dropWhile_cons, hwc, Bool.false_eq_true, if_false]

theorem ltrim_rtrim_ltrim (s : RStr) : ltrim (rtrim (ltrim s)) = rtrim (ltrim s) := by
  rcases ltrim_head_cases s with h | ⟨a, t, h, hwa⟩
  · rw [h]
    rfl
  · rw [h]
    obtain ⟨hy, _⟩ := rtrim_decompose (a :: t)
    cases hr : rtrim (a :: t) with
    | nil => rfl
    | cons b u =>
      rw [hr] at hy
      have hb : b = a := by
        have := hy
        simp only [List.cons_append] at this
        exact (List.cons.injEq _ _ _ _ ▸ this).1.symm
      subst hb
      simp only [ltrim, List.dropWhile_cons, hwa, Bool.false_eq_true, if_false]

theorem trim_collapse_trim (s : RStr) :
    trimChars (collapseAux (trimChars s) false) = trimChars (collapseAux s false) := by
  show rtrim (ltrim (collapseAux (rtrim (ltrim s)) false)) =
    rtrim (ltrim (collapseAux s false))
  rw [← collapseAux_ltrim (rtrim (ltrim s)), ltrim_rtrim_ltrim,
    rtrim_collapseAux (ltrim s), collapseAux_ltrim s]

theorem normalize_zone_via (s : RStr) :
    normalize_zone s =
      (if trimChars (collapseAux s false) = [] then none
       else some ((trimChars (collapseAux s false)).map toLowerC)) := by
  unfold normalize_zone collapse_whitespace
  rw [trim_collapse_trim]

theorem normalize_zone_run {u v w1 w2 : RStr} (h1 : w1.all isWs = true)
    (hn1 : w1 ≠ []) (h2 : w2.all isWs = true) (hn2 : w2 ≠ []) :
    normalize_zone (u ++ w1 ++ v) = normalize_zone (u ++ w2 ++ v) := by
  rw [normalize_zone_via, normalize_zone_via]
  have key : collapseAux (u ++ w1 ++ v) false = collapseAux (u ++ w2 ++ v) false := by
    rw [List.append_assoc, List.append_assoc, collapseAux_append u _ false,
      collapseAux_append u _ false]
    congr 1
    rw [collapseAux_append w1 v _, collapseAux_append w2 v _]
    rw [endFlag_allWs h1 hn1, endFlag_allWs h2 hn2]
    congr 1
    cases hf : endFlag u false with
    | true => rw [collapseAux_allWs_true h1, collapseAux_allWs_true h2]
    | false => rw [collapseAux_allWs_false h1 hn1, collapseAux_allWs_false h2 hn2]
  rw [key]

theorem assocLookup_append (a b : List (RStr × RStr)) (k : RStr) :
    assocLookup (a ++ b) k =
      match assocLookup a k with
      | some v => some v
      | none => assocLookup b k := by
  induction a with
  | nil => rfl
  | cons p rest ih =>
    by_cases hp : p.1 = k
    · simp [assocLookup, hp]
    · simp only [List.cons_append, assocLookup, if_neg hp]
      exact ih

theorem any_key_lookup_none : ∀ (acc : List (RStr × RStr)) (n : RStr),
    (acc.any fun p => decide (p.1 = n)) = false → assocLookup acc n = none := by
  intro acc n
  induction acc with
  | nil => intro _; rfl
  | cons p rest ih =>
    intro h
    simp only [List.any_cons, Bool.or_eq_false_iff, decide_eq_false_iff_not] at h
    simp only [assocLookup, if_neg h.1]
    apply ih
    simp only [List.any_eq_false, decide_eq_false_iff_not] at h ⊢
    exact h.2

theorem any_key_lookup_some : ∀ (acc : List (RStr × RStr)) (n : RStr),
    (acc.any fun p => decide (p.1 = n)) = true → ∃ v, assocLookup acc n = some v := by
  intro acc n
  induction acc with
  | nil => intro h; simp at h
  | cons p rest ih =>
    intro h
    by_cases hp : p.1 = n
    · exact ⟨p.2, by simp [assocLookup, hp]⟩
    · simp only [List.any_cons, Bool.or_eq_true, decide_eq_true_eq] at h
      rcases h with h | h
      · exact absurd h hp
      · obtain ⟨v, hv⟩ := ih h
        exact ⟨v, by simp only [assocLookup, if_neg hp]; exact hv⟩

theorem fromRawAux_lookup : ∀ (entries : List RStr) (acc : List (RStr × RStr))
    (key : RStr),
    assocLookup (fromRawAux entries acc) key =
      match assocLookup acc key with
      | some v => some v
      | none =>
        (entries.find? fun z => decide (normalize_zone z = some key)).map
          fun z => collapse_whitespace (trimChars z) := by
  intro entries
  induction entries with
  | nil =>
    intro acc key
    cases h : assocLookup acc key <;> simp [fromRawAux, h]
  | cons z rest ih =>
    intro acc key
    cases hn : normalize_zone z with
    | none =>
      rw [show fromRawAux (z :: rest) acc = fromRawAux rest acc from by
        simp [fromRawAux, hn]]
      rw [ih acc key]
      have hz : ¬ ((fun y => decide (normalize_zone y = some key)) z = true) := by
        simp [hn]
      have hfind : List.find? (fun y => decide (normalize_zone y = some key)) (z :: rest) =
          List.find? (fun y => decide (normalize_zone y = some key)) rest :=
        List.find?_cons_of_neg rest hz
      rw [hfind]
    | some n =>
      cases hmem : (acc.any fun p => decide (p.1 = n)) with
      | true =>
        rw [show fromRawAux (z :: rest) acc = fromRawAux rest acc from by
          simp [fromRawAux, hn, hmem]]
        rw [ih acc key]
        by_cases hkey : key = n
        · subst hkey
          obtain ⟨v, hv⟩ := any_key_lookup_some acc key hmem
          rw [hv]
        · have hz : ¬ ((fun y => decide (normalize_zone y = some key)) z = true) := by
            simp only [hn, Option.some.injEq, decide_eq_true_eq]
            exact fun hc => hkey hc.symm
          have hfind : List.find? (fun y => decide (normalize_zone y = some key))
              (z :: rest) = List.find? (fun y => decide (normalize_zone y = some key)) rest :=
            List.find?_cons_of_neg rest hz
          rw [hfind]
      | false =>
        rw [show fromRawAux (z :: rest) acc =
            fromRawAux rest (acc ++ [(n, collapse_whitespace (trimChars z))]) from by
          simp [fromRawAux, hn, hmem]]
        rw [ih (acc ++ [(n, collapse_whitespace (trimChars z))]) key]
        by_cases hkey : key = n
        · subst hkey
          have hacc : assocLookup acc key = none := any_key_lookup_none acc key hmem
          rw [assocLookup_append, hacc]
          have hz : (fun y => decide (normalize_zone y = some key)) z = true := by
            simp [hn]
          have hfind : List.find? (fun y => decide (normalize_zone y = some key))
              (z :: rest) = some z :=
            List.find?_cons_of_pos rest hz
          rw [hfind]
          simp [assocLookup]
        · have hlook : assocLookup (acc ++ [(n, collapse_whitespace (trimChars z))]) key
              = assocLookup acc key := by
            rw [assocLookup_append]
            cases h : assocLookup acc key with
            | some v => rfl
            | none =>
              simp only [assocLookup]
              rw [if_neg fun hc => hkey hc.symm]
          rw [hlook]
          have hz : ¬ ((fun y => decide (normalize_zone y = some key)) z = true) := by
            simp only [hn, Option.some.injEq, decide_eq_true_eq]
            exact fun hc => hkey hc.symm
          have hfind : List.find? (fun y => decide (normalize_zone y = some key))
              (z :: rest) = List.find? (fun y => decide (normalize_zone y = some key)) rest :=
            List.find?_cons_of_neg rest hz
          rw [hfind]

theorem canonical_zone_congr {cat : DungeonCatalog} {z1 z2 : RStr}
    (h : normalize_zone z1 = normalize_zone z2) :
    cat.canonical_zone z1 = cat.canonical_zone z2 := by
  unfold DungeonCatalog.canonical_zone
  rw [h]

/-- C3: zone names differing only in surrounding whitespace, internal
whitespace runs or letter case resolve through canonical_zone to the same
entry (concrete Sastasha variants, plus invariance of the lookup under
normalization equality, per-character lowercase equality, all-whitespace
padding and whitespace-run replacement), and on a normalized-key collision
the catalog keeps the canonical spelling of the first entry registered. -/
theorem C3_catalog_normalization :
    (∀ cat : DungeonCatalog,
      cat.canonical_zone (strLit "  Sastasha  ") = cat.canonical_zone (strLit "Sastasha") ∧
      cat.canonical_zone (strLit "SASTASHA") = cat.canonical_zone (strLit "Sastasha")) ∧
    (∀ (cat : DungeonCatalog) (z1 z2 : RStr), normalize_zone z1 = normalize_zone z2 →
      cat.canonical_zone z1 = cat.canonical_zone z2) ∧
    (∀ (cat : DungeonCatalog) (z1 z2 : RStr), z1.map toLowerC = z2.map toLowerC →
      cat.canonical_zone z1 = cat.canonical_zone z2) ∧
    (∀ (cat : DungeonCatalog) (z w1 w2 : RStr), w1.all isWs = true → w2.all isWs = true →
      cat.canonical_zone (w1 ++ z ++ w2) = cat.canonical_zone z) ∧
    (∀ (cat : DungeonCatalog) (u v w1 w2 : RStr), w1.all isWs = true → w1 ≠ [] →
      w2.all isWs = true → w2 ≠ [] →
      cat.canonical_zone (u ++ w1 ++ v) = cat.canonical_zone (u ++ w2 ++ v)) ∧
    (∀ (entries : List RStr) (key : RStr),
      assocLookup (DungeonCatalog.from_raw entries).canonical_by_norm key =
        (entries.find? fun z => decide (normalize_zone z = some key)).map
          fun z => collapse_whitespace (trimChars z)) := by
  refine ⟨?_, ?_, ?_, ?_, ?_, ?_⟩
  · intro cat
    exact ⟨canonical_zone_congr (by decide), canonical_zone_congr (by decide)⟩
  · intro cat z1 z2 h
    exact canonical_zone_congr h
  · intro cat z1 z2 h
    exact canonical_zone_congr (normalize_zone_map_toLower h)
  · intro cat z w1 w2 h1 h2
    exact canonical_zone_congr (normalize_zone_pad h1 h2)
  · intro cat u v w1 w2 h1 hn1 h2 hn2
    exact canonical_zone_congr (normalize_zone_run h1 hn1 h2 hn2)
  · intro entries key
    have := fromRawAux_lookup entries [] key
    simpa [DungeonCatalog.from_raw, assocLookup] using this

/-- Witness for C3: each invariance applied at concrete inputs, and the
first-registered spelling surviving a concrete collision. -/
theorem C3_catalog_normalization_witness :
    sampleCatalog.canonical_zone (strLit "sastasha") =
      sampleCatalog.canonical_zone (strLit "SASTASHA") ∧
    sampleCatalog.canonical_zone ([32] ++ strLit "Sastasha" ++ [32]) =
      sampleCatalog.canonical_zone (strLit "Sastasha") ∧
    sampleCatalog.canonical_zone (strLit "The" ++ [32] ++ strLit "Keep") =
      sampleCatalog.canonical_zone (strLit "The" ++ [32, 9, 32] ++ strLit "Keep") ∧
    assocLookup
      (DungeonCatalog.from_raw [strLit "Sastasha", strLit " SASTASHA "]).canonical_by_norm
      (strLit "sastasha") = some (strLit "Sastasha") := by
  refine ⟨?_, ?_, ?_, ?_⟩
  · exact C3_catalog_normalization.2.2.1 sampleCatalog (strLit "sastasha")
      (strLit "SASTASHA") (by decide)
  · exact C3_catalog_normalization.2.2.2.1 sampleCatalog (strLit "Sastasha") [32] [32]
      (by decide) (by decide)
  · exact C3_catalog_normalization.2.2.2.2.1 sampleCatalog (strLit "The") (strLit "Keep")
      [32] [32, 9, 32] (by decide) (by decide) (by decide) (by decide)
  · rw [C3_catalog_normalization.2.2.2.2.2 [strLit "Sastasha", strLit " SASTASHA "]
      (strLit "sastasha")]
    decide

end Nekomata
